import Mathlib

/-!
Shallow embedding of `chained-motion` (src/motion.ts and the MotionTimeline
class) and proofs about it.

Conventions of the embedding:
* JS numbers are modelled as exact rationals (`ℚ`); the special values that
  JS division can produce (`NaN`, `Infinity`, `-Infinity`) are modelled
  explicitly by the `JsNum` type, since `buildKeyframes` divides by
  `steps.length - 1`, which is zero for a single step.
* `Partial<CSSStyleDeclaration>` values are modelled as ordered lists of
  property/value string pairs (`Object.entries` enumerates string keys in
  insertion order).
* DOM effects (style injection, clone insertion/removal, timer waits, hooks)
  are modelled as an event trace produced by `Motion.run`; a hook is
  modelled by whether it is absent, succeeds, or fails (`HookSpec`), and a
  rejected promise is the `failed` flag of the run result.
* `Math.random`-based keyframe naming is modelled by passing the generated
  name as a parameter to `run`.
-/

/-- Decimal rendering of a JS number.  Integer values render exactly as JS
renders them (plain decimal digits, `-` sign); non-integral rationals use a
`num/den` form, since the exact decimal expansion of a binary float is not
modelled (no claim evaluates a non-integral coordinate as a string). -/
def ratStr (q : ℚ) : String :=
  if q.den = 1 then toString q.num else toString q.num ++ "/" ++ toString q.den

/-- A JS `number` result: either an ordinary (finite) number or one of the
IEEE special values that JS arithmetic can produce. -/
inductive JsNum where
  | num (q : ℚ)
  | nan
  | inf
  | negInf
deriving DecidableEq, Repr

/-- JS division `a / b` on finite operands: `0 / 0` is `NaN`, `a / 0` for
`a ≠ 0` is a signed infinity, otherwise exact division. -/
def jsDiv (a b : ℚ) : JsNum :=
  if b = 0 then
    if a = 0 then JsNum.nan else if a > 0 then JsNum.inf else JsNum.negInf
  else
    JsNum.num (a / b)

/-- JS multiplication of a possibly-special number by a finite number. -/
def JsNum.mulQ : JsNum → ℚ → JsNum
  | JsNum.num q, k => JsNum.num (q * k)
  | JsNum.nan, _ => JsNum.nan
  | JsNum.inf, k => if k = 0 then JsNum.nan else if k > 0 then JsNum.inf else JsNum.negInf
  | JsNum.negInf, k => if k = 0 then JsNum.nan else if k > 0 then JsNum.negInf else JsNum.inf

/-- JS string interpolation of a number (`${x}`): `NaN`, `Infinity`,
`-Infinity`, or the decimal rendering. -/
def jsStr : JsNum → String
  | JsNum.num q => ratStr q
  | JsNum.nan => "NaN"
  | JsNum.inf => "Infinity"
  | JsNum.negInf => "-Infinity"

/-- `type Point = [x: number, y: number]` -/
abbrev Point := ℚ × ℚ

/-- `interface Step \x7b at?: number; point: Point; styles?: Partial<CSSStyleDeclaration> \x7d`.
`at` is a Lean keyword, so the field is named `at_`. -/
structure Step where
  at_ : Option ℚ
  point : Point
  styles : Option (List (String × String))
deriving DecidableEq, Repr

/-- `DOMRect` restricted to the fields the source reads. -/
structure Rect where
  left : ℚ
  top : ℚ
  width : ℚ
  height : ℚ
deriving DecidableEq, Repr

/-- `type Repeat = number | "infinite"` -/
inductive Repeat where
  | count (n : ℚ)
  | infinite
deriving DecidableEq, Repr

/-- `type Direction = "normal" | "reverse"` -/
inductive Direction where
  | normal
  | reverse
deriving DecidableEq, Repr

/-- `${animation.repeat}` in the animation shorthand template. -/
def Repeat.render : Repeat → String
  | Repeat.count n => ratStr n
  | Repeat.infinite => "infinite"

/-- `${animation.direction}` in the animation shorthand template. -/
def Direction.render : Direction → String
  | Direction.normal => "normal"
  | Direction.reverse => "reverse"

namespace Motion

/-- `points[i] ?? points.at(-1)!` — the read performed by the `buildPath`
loop: the element at `i` when it exists, otherwise the last element. -/
def readPt (points : List Point) (i : Nat) : Point :=
  (points.get? i).getD (points.getLastD (0, 0))

/-- One `C x1 y1, x2 y2, x3 y3` segment pushed by the `buildPath` loop body
at loop index `i`. -/
def segString (points : List Point) (i : Nat) : String :=
  let p1 := readPt points i
  let p2 := readPt points (i + 1)
  let p3 := readPt points (i + 2)
  "C " ++ ratStr p1.1 ++ " " ++ ratStr p1.2 ++ ", " ++
    ratStr p2.1 ++ " " ++ ratStr p2.2 ++ ", " ++
    ratStr p3.1 ++ " " ++ ratStr p3.2

/-- The `for (let i = 0; i < points.length; i += 2)` loop of `buildPath`:
the list of segment strings pushed after the initial `"M 0 0"`. -/
def pathLoop (points : List Point) (i : Nat) : List String :=
  if i < points.length then
    segString points i :: pathLoop points (i + 2)
  else
    []
termination_by points.length - i

/-- `Motion.buildPath` (src/motion.ts lines 136–151). -/
def buildPath (points : List Point) : String :=
  if points.length = 1 then
    let p := points.headI
    "path(\"M 0 0 L " ++ ratStr p.1 ++ " " ++ ratStr p.2 ++ "\")"
  else
    "path(\"" ++ String.intercalate " " ("M 0 0" :: pathLoop points 0) ++ "\")"

/-- `step.at ?? (i / (steps.length - 1)) * 100` — the percentage of the
keyframe stop for the step at index `i` among `n` steps. -/
def stepPercent (at_ : Option ℚ) (i n : Nat) : JsNum :=
  match at_ with
  | some a => JsNum.num a
  | none => (jsDiv (i : ℚ) ((n : ℚ) - 1)).mulQ 100

/-- The `styleBlock` string of one keyframe stop: `""` when `styles` is
absent, else the `k: v;` entries joined by single spaces. -/
def styleBlockStr : Option (List (String × String)) → String
  | none => ""
  | some l => String.intercalate " " (l.map (fun kv => kv.1 ++ ": " ++ kv.2 ++ ";"))

/-- One keyframe stop of `buildKeyframes`, before string formatting:
its percentage and the step's style entries. -/
structure Frame where
  percent : JsNum
  styles : Option (List (String × String))
deriving DecidableEq, Repr

/-- `${percent}% \x7b offset-distance: ${percent}%; ${styleBlock} \x7d` -/
def renderFrame (f : Frame) : String :=
  jsStr f.percent ++ "% \x7b offset-distance: " ++ jsStr f.percent ++ "%; " ++
    styleBlockStr f.styles ++ " \x7d"

/-- The `steps.map((step, i) => ...)` of `buildKeyframes`, with `n` the
total step count and `i` the running index. -/
def buildFramesAux (n : Nat) : Nat → List Step → List Frame
  | _, [] => []
  | i, s :: rest => ⟨stepPercent s.at_ i n, s.styles⟩ :: buildFramesAux n (i + 1) rest

/-- The list of keyframe stops produced for a step list. -/
def buildFrames (steps : List Step) : List Frame :=
  buildFramesAux steps.length 0 steps

/-- `Motion.buildKeyframes` (src/motion.ts lines 153–166). -/
def buildKeyframes (name : String) (steps : List Step) : String :=
  "@keyframes " ++ name ++ " \x7b\n" ++
    String.intercalate "\n" ((buildFrames steps).map renderFrame) ++ "\n\x7d"

end Motion

/-- `interface MotionCloneAnimation` (`repeat` is a Lean keyword, so the
field is named `repeat_`). -/
structure MotionCloneAnimation where
  name : String
  duration : ℚ
  easing : String
  delay : ℚ
  repeat_ : Repeat
  direction : Direction
deriving DecidableEq, Repr

/-- The style record `Object.assign`ed onto the clone by `createClone`.
The clone's copied DOM subtree is not modelled; only the style the engine
sets on it is. -/
structure CloneStyle where
  position : String
  left : String
  top : String
  width : String
  height : String
  zIndex : String
  pointerEvents : String
  transform : String
  offsetPath : String
  offsetDistance : String
  offsetRotate : String
  willChange : String
  animationShorthand : String
deriving DecidableEq, Repr

/-- `Motion.createClone` (src/motion.ts lines 175–203); the `node` argument
is dropped since only the assigned style is modelled. -/
def Motion.createClone (rect : Rect) (x y : ℚ) (path : String)
    (a : MotionCloneAnimation) : CloneStyle :=
  { position := "fixed"
    left := ratStr x ++ "px"
    top := ratStr y ++ "px"
    width := ratStr rect.width ++ "px"
    height := ratStr rect.height ++ "px"
    zIndex := "9999"
    pointerEvents := "none"
    transform := "translate(0, 0)"
    offsetPath := path
    offsetDistance := "0%"
    offsetRotate := "0deg"
    willChange := "offset-distance"
    animationShorthand :=
      a.name ++ " " ++ ratStr a.duration ++ "ms " ++ a.easing ++ " " ++
        ratStr a.delay ++ "ms " ++ a.repeat_.render ++ " " ++
        a.direction.render ++ " forwards" }

/-- A lifecycle hook slot: unset, or a callback that resolves, or a callback
that throws/rejects. -/
inductive HookSpec where
  | absent
  | succeeds
  | fails
deriving DecidableEq, Repr

/-- The observable effects of one `run()` call, in order. -/
inductive Event where
  | beforeHook
  | factoryCall (i : Nat)
  | styleInject (css : String)
  | cloneAppend (c : CloneStyle)
  | waitFor (ms : ℚ)
  | cloneRemove
  | styleRemove
  | afterHook
deriving DecidableEq, Repr

/-- Outcome of an async call: the events it performed, in order, and whether
its promise rejected. -/
structure RunResult where
  events : List Event
  failed : Bool
deriving DecidableEq, Repr

/-- Extracts the clone carried by a clone-insertion event. -/
def cloneOf : Event → Option CloneStyle
  | Event.cloneAppend c => some c
  | _ => none

/-- Extracts the CSS text carried by a style-injection event. -/
def styleOf : Event → Option String
  | Event.styleInject css => some css
  | _ => none

/-- The clones appended to the document during a run. -/
def RunResult.clones (r : RunResult) : List CloneStyle :=
  r.events.filterMap cloneOf

/-- The style rules injected into the document during a run. -/
def RunResult.styleRules (r : RunResult) : List String :=
  r.events.filterMap styleOf

/-- The `Motion` configuration record at `run()` time.  A step factory is a
function of the measurement context; the context's `node` is not inspected
by anything modelled, so a factory takes just the `rect`. -/
structure Motion where
  factories : List (Rect → Step)
  durationMs : ℚ
  easingFn : String
  delayMs : ℚ
  repeatCount : Repeat
  directionVal : Direction
  beforeCallback : HookSpec
  afterCallback : HookSpec

/-- The normalisation in `run` (lines 98–99): subtract the start point from
every step's point. -/
def Motion.normalizeSteps (start : Point) (steps : List Step) : List Point :=
  steps.map (fun s => (s.point.1 - start.1, s.point.2 - start.2))

/-- `Motion.run` (src/motion.ts lines 87–134) as a trace semantics.
`rect` is the measured bounding rectangle and `kfName` the freshly
generated keyframe name (`Math.random` is modelled as a parameter). -/
def Motion.run (m : Motion) (rect : Rect) (kfName : String) : RunResult :=
  let beforeEvts := if m.beforeCallback = HookSpec.absent then [] else [Event.beforeHook]
  if m.beforeCallback = HookSpec.fails then
    ⟨beforeEvts, true⟩
  else
    let steps := m.factories.map (fun f => f rect)
    let factoryEvts := (List.range steps.length).map Event.factoryCall
    match steps with
    | [] => ⟨beforeEvts ++ factoryEvts, false⟩
    | s0 :: rest =>
      let startX := s0.point.1
      let startY := s0.point.2
      let normalized := Motion.normalizeSteps (startX, startY) (s0 :: rest)
      let pathString := Motion.buildPath normalized
      let keyframeCSS := Motion.buildKeyframes kfName (s0 :: rest)
      let clone := Motion.createClone rect startX startY pathString
        ⟨kfName, m.durationMs, m.easingFn, m.delayMs, m.repeatCount, m.directionVal⟩
      let teardownEvts :=
        if m.repeatCount = Repeat.infinite then
          []
        else
          let total := (m.durationMs + m.delayMs) *
            (match m.repeatCount with
             | Repeat.count n => n
             | Repeat.infinite => 1)
          [Event.waitFor total, Event.cloneRemove, Event.styleRemove]
      let afterEvts := if m.afterCallback = HookSpec.absent then [] else [Event.afterHook]
      ⟨beforeEvts ++ factoryEvts ++
         [Event.styleInject keyframeCSS, Event.cloneAppend clone] ++
         teardownEvts ++ afterEvts,
       m.afterCallback = HookSpec.fails⟩

/-- An entry of a `MotionTimeline` queue: a `Motion` (together with the
environment its `run` would observe: measured rect and generated keyframe
name) or a nested timeline, represented by its queue. -/
inductive TimelineEntry where
  | motion (m : Motion) (rect : Rect) (kfName : String)
  | timeline (queue : List TimelineEntry)

/-- `MotionTimeline` (the class with the `queue` field). -/
structure MotionTimeline where
  queue : List TimelineEntry

mutual

/-- Playing one queue entry: `entry instanceof MotionTimeline ?
await entry.play() : await entry.run()`. -/
def TimelineEntry.play : TimelineEntry → RunResult
  | TimelineEntry.motion m rect kfName => Motion.run m rect kfName
  | TimelineEntry.timeline q => MotionTimeline.playQueue q

/-- The `for (const entry of this.queue)` loop of `MotionTimeline.play`:
each entry is awaited to completion before the next begins; a rejected
entry rejects the whole `play()` at once. -/
def MotionTimeline.playQueue : List TimelineEntry → RunResult
  | [] => ⟨[], false⟩
  | e :: rest =>
    let r := TimelineEntry.play e
    if r.failed then
      r
    else
      let rr := MotionTimeline.playQueue rest
      ⟨r.events ++ rr.events, rr.failed⟩

end

/-- `MotionTimeline.play` (src/unnamed/part_001 lines 16–24). -/
def MotionTimeline.play (t : MotionTimeline) : RunResult :=
  MotionTimeline.playQueue t.queue

/-- `MotionTimeline.add`: appends to the queue, returns the timeline. -/
def MotionTimeline.add (t : MotionTimeline) (e : TimelineEntry) : MotionTimeline :=
  ⟨t.queue ++ [e]⟩

/-- `MotionTimeline.clear` (src/unnamed/part_001 lines 11–14): resets the
queue to empty, returns the timeline. -/
def MotionTimeline.clear (_t : MotionTimeline) : MotionTimeline :=
  ⟨[]⟩

/-! ## Helper lemmas -/

/-- A default step, used as `getD` fallback in statements. -/
def defStep : Step := ⟨none, (0, 0), none⟩

/-- A default frame, used as `getD` fallback in statements. -/
def defFrame : Motion.Frame := ⟨JsNum.nan, none⟩

lemma getD_map_of_lt {α β : Type} (f : α → β) (l : List α) (i : Nat)
    (h : i < l.length) (d : β) (d₀ : α) :
    (l.map f).getD i d = f (l.getD i d₀) := by
  induction l generalizing i with
  | nil => simp at h
  | cons a t ih =>
    cases i with
    | zero => simp
    | succ j =>
      simp only [List.map_cons, List.getD_cons_succ]
      exact ih j (by simpa using h)

lemma buildFramesAux_length (n i : Nat) (steps : List Step) :
    (Motion.buildFramesAux n i steps).length = steps.length := by
  induction steps generalizing i with
  | nil => rfl
  | cons s t ih => simp [Motion.buildFramesAux, ih]

lemma buildFramesAux_getD (n i j : Nat) (steps : List Step) (hj : j < steps.length) :
    (Motion.buildFramesAux n i steps).getD j defFrame =
      ⟨Motion.stepPercent (steps.getD j defStep).at_ (i + j) n,
       (steps.getD j defStep).styles⟩ := by
  induction steps generalizing i j with
  | nil => simp at hj
  | cons s t ih =>
    cases j with
    | zero => simp [Motion.buildFramesAux]
    | succ k =>
      simp only [Motion.buildFramesAux, List.getD_cons_succ]
      rw [ih (i + 1) k (by simpa using hj)]
      congr 2
      omega

lemma buildFrames_length (steps : List Step) :
    (Motion.buildFrames steps).length = steps.length :=
  buildFramesAux_length _ _ _

lemma buildFrames_getD (steps : List Step) (j : Nat) (hj : j < steps.length) :
    (Motion.buildFrames steps).getD j defFrame =
      ⟨Motion.stepPercent (steps.getD j defStep).at_ j steps.length,
       (steps.getD j defStep).styles⟩ := by
  rw [Motion.buildFrames, buildFramesAux_getD _ _ _ _ hj, Nat.zero_add]

lemma stepPercent_some (a : ℚ) (i n : Nat) :
    Motion.stepPercent (some a) i n = JsNum.num a := rfl

lemma stepPercent_none_of_two_le (i n : Nat) (hn : 2 ≤ n) :
    Motion.stepPercent none i n = JsNum.num ((i : ℚ) / ((n : ℚ) - 1) * 100) := by
  have hne : ((n : ℚ) - 1) ≠ 0 := by
    have : (2 : ℚ) ≤ (n : ℚ) := by exact_mod_cast hn
    intro h
    nlinarith
  simp [Motion.stepPercent, jsDiv, hne, JsNum.mulQ]

/-! ## Claim theorems -/

/-- C2 (code evaluated at the failing input): `buildKeyframes` has no
special case for a single step — for one step with `at` omitted the
percentage is computed as `(0 / (1 - 1)) * 100`, i.e. `0 / 0` scaled, which
is `NaN`, and the emitted stop reads `NaN% \x7b offset-distance: NaN%;  \x7d`. -/
lemma stepPercent_none_single : Motion.stepPercent none 0 1 = JsNum.nan := by
  have h : ((1 : Nat) : ℚ) - 1 = 0 := by norm_num
  simp [Motion.stepPercent, jsDiv, h, JsNum.mulQ]

theorem single_step_keyframe_is_nan :
    Motion.stepPercent none 0 1 = JsNum.nan
    ∧ Motion.buildKeyframes "k" [⟨none, (0, 0), none⟩]
        = "@keyframes k \x7b\nNaN% \x7b offset-distance: NaN%;  \x7d\n\x7d" := by
  refine ⟨stepPercent_none_single, ?_⟩
  have h1 : Motion.buildFrames [⟨none, (0, 0), none⟩] = [⟨JsNum.nan, none⟩] := by
    simp [Motion.buildFrames, Motion.buildFramesAux, stepPercent_none_single]
  rw [Motion.buildKeyframes, h1]
  rfl

/-- C3: for every non-empty step sequence the keyframe description has
exactly one stop per step; a stop with explicit `at` (including 0) sits at
exactly that percentage; for `N ≥ 2` steps a stop with `at` omitted sits at
`(i / (N - 1)) * 100` (so all-default sequences are evenly spaced with the
first at 0 and the last at 100); each stop sets `offset-distance` to its own
percentage and carries its step's style pairs verbatim; the keyframe block
is exactly these stops, rendered in order, joined by newlines. -/
theorem keyframe_stops_spec (name : String) (steps : List Step) (hne : steps ≠ []) :
    (Motion.buildFrames steps).length = steps.length
    ∧ (∀ i, i < steps.length → ∀ a, (steps.getD i defStep).at_ = some a →
        ((Motion.buildFrames steps).getD i defFrame).percent = JsNum.num a)
    ∧ (2 ≤ steps.length → ∀ i, i < steps.length → (steps.getD i defStep).at_ = none →
        ((Motion.buildFrames steps).getD i defFrame).percent
          = JsNum.num ((i : ℚ) / ((steps.length : ℚ) - 1) * 100))
    ∧ (∀ i, i < steps.length →
        ((Motion.buildFrames steps).getD i defFrame).styles = (steps.getD i defStep).styles)
    ∧ (∀ f : Motion.Frame, Motion.renderFrame f =
        jsStr f.percent ++ "% \x7b offset-distance: " ++ jsStr f.percent ++ "%; " ++
          Motion.styleBlockStr f.styles ++ " \x7d")
    ∧ Motion.buildKeyframes name steps =
        "@keyframes " ++ name ++ " \x7b\n" ++
          String.intercalate "\n" ((Motion.buildFrames steps).map Motion.renderFrame) ++ "\n\x7d" := by
  refine ⟨buildFrames_length steps, ?_, ?_, ?_, fun f => rfl, rfl⟩
  · intro i hi a ha
    rw [buildFrames_getD steps i hi, ha, stepPercent_some]
  · intro h2 i hi ha
    rw [buildFrames_getD steps i hi, ha]
    exact stepPercent_none_of_two_le i steps.length h2
  · intro i hi
    rw [buildFrames_getD steps i hi]

/-- Witness for C3 at a concrete input: three steps, the middle one with an
explicit `at := 30` and two style pairs, the outer two defaulted. -/
theorem keyframe_stops_spec_witness :
    ([⟨none, (0, 0), none⟩, ⟨some 30, (1, 1), some [("opacity", "0.5")]⟩,
      ⟨none, (2, 2), none⟩] : List Step) ≠ []
    ∧ (Motion.buildFrames [⟨none, (0, 0), none⟩,
        ⟨some 30, (1, 1), some [("opacity", "0.5")]⟩, ⟨none, (2, 2), none⟩]).length = 3
    ∧ ((Motion.buildFrames [⟨none, (0, 0), none⟩,
        ⟨some 30, (1, 1), some [("opacity", "0.5")]⟩, ⟨none, (2, 2), none⟩]).getD 1
          defFrame).percent = JsNum.num 30
    ∧ ((Motion.buildFrames [⟨none, (0, 0), none⟩,
        ⟨some 30, (1, 1), some [("opacity", "0.5")]⟩, ⟨none, (2, 2), none⟩]).getD 2
          defFrame).percent = JsNum.num 100 := by
  have h := keyframe_stops_spec "k"
    [⟨none, (0, 0), none⟩, ⟨some 30, (1, 1), some [("opacity", "0.5")]⟩, ⟨none, (2, 2), none⟩]
    (by simp)
  refine ⟨by simp, h.1, ?_, ?_⟩
  · exact h.2.1 1 (by norm_num) 30 (by rfl)
  · have := h.2.2.1 (by norm_num) 2 (by norm_num) (by rfl)
    rw [this]
    norm_num

lemma readPt_spec (points : List Point) (i : Nat) :
    Motion.readPt points i =
      if i < points.length then points.getD i (0, 0) else points.getLastD (0, 0) := by
  unfold Motion.readPt
  by_cases h : i < points.length
  · rw [if_pos h, List.get?_eq_get h, Option.getD_some, List.getD_eq_getElem?_getD,
      List.getElem?_eq_getElem h]
    rfl
  · rw [if_neg h, List.get?_eq_none.mpr (by omega), Option.getD_none]

lemma pathLoop_eq_aux (points : List Point) (d : Nat) :
    ∀ i, points.length - i ≤ d →
      Motion.pathLoop points i =
        (List.range ((points.length - i + 1) / 2)).map
          (fun k => Motion.segString points (i + 2 * k)) := by
  induction d with
  | zero =>
    intro i hle
    have h : ¬ i < points.length := by omega
    rw [Motion.pathLoop, if_neg h]
    have h0 : (points.length - i + 1) / 2 = 0 := by omega
    rw [h0]
    rfl
  | succ d ih =>
    intro i hle
    by_cases h : i < points.length
    · rw [Motion.pathLoop, if_pos h, ih (i + 2) (by omega)]
      have h2 : (points.length - i + 1) / 2 = (points.length - (i + 2) + 1) / 2 + 1 := by
        omega
      rw [h2, List.range_succ_eq_map, List.map_cons, List.map_map]
      refine congrArg₂ List.cons (by simp) ?_
      apply List.map_congr_left
      intro k _
      simp only [Function.comp_apply]
      congr 1
      omega
    · rw [Motion.pathLoop, if_neg h]
      have h0 : (points.length - i + 1) / 2 = 0 := by omega
      rw [h0]
      rfl

lemma pathLoop_eq (points : List Point) :
    Motion.pathLoop points 0 =
      (List.range ((points.length + 1) / 2)).map
        (fun k => Motion.segString points (2 * k)) := by
  have h := pathLoop_eq_aux points points.length 0 (by omega)
  simpa using h

/-- C4: for a single normalized point the path is one straight segment from
the origin to that point; for two or more points it is `M 0 0` followed by
one cubic segment per loop iteration `k` (`(N + 1) / 2` iterations at
stride 2), where iteration `k` reads the points at raw indices `2k`,
`2k + 1`, `2k + 2` as control point 1, control point 2, and endpoint, and
any index at or past the end of the list is replaced by the last point, so
no read goes past the end of the array. -/
theorem buildPath_spec (points : List Point) (hne : points ≠ []) :
    (∀ x y, points = [(x, y)] →
      Motion.buildPath points = "path(\"M 0 0 L " ++ ratStr x ++ " " ++ ratStr y ++ "\")")
    ∧ (2 ≤ points.length →
        Motion.buildPath points =
          "path(\"" ++ String.intercalate " "
            ("M 0 0" :: (List.range ((points.length + 1) / 2)).map
              (fun k => Motion.segString points (2 * k))) ++ "\")")
    ∧ (∀ i, Motion.readPt points i =
        if i < points.length then points.getD i (0, 0) else points.getLastD (0, 0))
    ∧ (∀ i, Motion.segString points i =
        "C " ++ ratStr (Motion.readPt points i).1 ++ " " ++
          ratStr (Motion.readPt points i).2 ++ ", " ++
          ratStr (Motion.readPt points (i + 1)).1 ++ " " ++
          ratStr (Motion.readPt points (i + 1)).2 ++ ", " ++
          ratStr (Motion.readPt points (i + 2)).1 ++ " " ++
          ratStr (Motion.readPt points (i + 2)).2) := by
  refine ⟨?_, ?_, fun i => readPt_spec points i, fun i => rfl⟩
  · intro x y hp
    subst hp
    rfl
  · intro h2
    rw [Motion.buildPath, if_neg (by omega), pathLoop_eq]

/-- Witness for C4 at a concrete input: three points, giving two cubic
segments, the second padded with the last point. -/
theorem buildPath_spec_witness :
    ([((1 : ℚ), (2 : ℚ)), (3, 4), (5, 6)] : List Point) ≠ []
    ∧ Motion.buildPath [((1 : ℚ), 2), (3, 4), (5, 6)]
        = "path(\"M 0 0 C 1 2, 3 4, 5 6 C 5 6, 5 6, 5 6\")" := by
  refine ⟨by simp, ?_⟩
  rw [(buildPath_spec [(1, 2), (3, 4), (5, 6)] (by simp)).2.1 (by norm_num)]
  rfl

lemma filterMap_cloneOf_factory (l : List Nat) :
    (l.map Event.factoryCall).filterMap cloneOf = [] := by
  induction l with
  | nil => rfl
  | cons a t ih => simp [cloneOf, ih]

lemma filterMap_styleOf_factory (l : List Nat) :
    (l.map Event.factoryCall).filterMap styleOf = [] := by
  induction l with
  | nil => rfl
  | cons a t ih => simp [styleOf, ih]

/-- `run` on a motion with at least one step factory and a non-failing
before-hook: the full event trace, spelled out. -/
lemma run_cons (m : Motion) (rect : Rect) (kf : String) (f : Rect → Step)
    (fs : List (Rect → Step)) (hf : m.factories = f :: fs)
    (hb : m.beforeCallback ≠ HookSpec.fails) :
    Motion.run m rect kf =
      ⟨(if m.beforeCallback = HookSpec.absent then [] else [Event.beforeHook]) ++
        (List.range (fs.length + 1)).map Event.factoryCall ++
        [Event.styleInject (Motion.buildKeyframes kf (f rect :: fs.map (fun g => g rect))),
         Event.cloneAppend (Motion.createClone rect (f rect).point.1 (f rect).point.2
           (Motion.buildPath (Motion.normalizeSteps ((f rect).point.1, (f rect).point.2)
             (f rect :: fs.map (fun g => g rect))))
           ⟨kf, m.durationMs, m.easingFn, m.delayMs, m.repeatCount, m.directionVal⟩)] ++
        (if m.repeatCount = Repeat.infinite then []
         else
           [Event.waitFor ((m.durationMs + m.delayMs) *
              (match m.repeatCount with
               | Repeat.count n => n
               | Repeat.infinite => 1)),
            Event.cloneRemove, Event.styleRemove]) ++
        (if m.afterCallback = HookSpec.absent then [] else [Event.afterHook]),
       decide (m.afterCallback = HookSpec.fails)⟩ := by
  unfold Motion.run
  rw [if_neg hb, hf]
  simp only [List.map_cons, List.length_cons, List.length_map]

lemma run_cons_clones (m : Motion) (rect : Rect) (kf : String) (f : Rect → Step)
    (fs : List (Rect → Step)) (hf : m.factories = f :: fs)
    (hb : m.beforeCallback ≠ HookSpec.fails) :
    (Motion.run m rect kf).clones =
      [Motion.createClone rect (f rect).point.1 (f rect).point.2
        (Motion.buildPath (Motion.normalizeSteps ((f rect).point.1, (f rect).point.2)
          (f rect :: fs.map (fun g => g rect))))
        ⟨kf, m.durationMs, m.easingFn, m.delayMs, m.repeatCount, m.directionVal⟩] := by
  rw [run_cons m rect kf f fs hf hb]
  unfold RunResult.clones
  simp only [List.filterMap_append, filterMap_cloneOf_factory, apply_ite (List.filterMap cloneOf)]
  by_cases h1 : m.beforeCallback = HookSpec.absent <;>
    by_cases h2 : m.repeatCount = Repeat.infinite <;>
    by_cases h3 : m.afterCallback = HookSpec.absent <;>
    simp [h1, h2, h3, cloneOf]

lemma run_cons_styleRules (m : Motion) (rect : Rect) (kf : String) (f : Rect → Step)
    (fs : List (Rect → Step)) (hf : m.factories = f :: fs)
    (hb : m.beforeCallback ≠ HookSpec.fails) :
    (Motion.run m rect kf).styleRules =
      [Motion.buildKeyframes kf (f rect :: fs.map (fun g => g rect))] := by
  rw [run_cons m rect kf f fs hf hb]
  unfold RunResult.styleRules
  simp only [List.filterMap_append, filterMap_styleOf_factory, apply_ite (List.filterMap styleOf)]
  by_cases h1 : m.beforeCallback = HookSpec.absent <;>
    by_cases h2 : m.repeatCount = Repeat.infinite <;>
    by_cases h3 : m.afterCallback = HookSpec.absent <;>
    simp [h1, h2, h3, styleOf]

/-- A concrete motion whose single step's point (5, 7) differs from the
measured rect's corner (10, 20). -/
def c5mot : Motion :=
  ⟨[fun _ => ⟨none, (5, 7), none⟩], 1000, "linear", 0, Repeat.count 1,
    Direction.normal, HookSpec.absent, HookSpec.absent⟩

/-- C5 counterexample: the clone's `left`/`top` are set from the FIRST
STEP'S POINT (`startX`/`startY`), not from the measured rect — here the
rect's corner is (10, 20) but the clone is placed at (5, 7). -/
theorem clone_position_counterexample :
    (Motion.run c5mot ⟨10, 20, 30, 40⟩ "kf").clones.map CloneStyle.left ≠ ["10px"]
    ∧ (Motion.run c5mot ⟨10, 20, 30, 40⟩ "kf").clones.map CloneStyle.left = ["5px"]
    ∧ (Motion.run c5mot ⟨10, 20, 30, 40⟩ "kf").clones.map CloneStyle.top = ["7px"]
    ∧ (Rect.mk 10 20 30 40).left = 10 ∧ (Rect.mk 10 20 30 40).top = 20 := by
  have h := run_cons_clones c5mot ⟨10, 20, 30, 40⟩ "kf"
    (fun _ => ⟨none, (5, 7), none⟩) [] rfl (by decide)
  rw [h]
  exact ⟨by decide, rfl, rfl, rfl, rfl⟩

/-- C5 (amended): for every run with a non-empty step sequence exactly one
clone is inserted; its `left`/`top` are the FIRST STEP's point coordinates
(not the measured rect's corner), its `width`/`height` come from the
measured rect, and it is fixed-positioned, top-layered (`zIndex` 9999) and
non-interactive (`pointerEvents` none). -/
theorem clone_style_spec (m : Motion) (rect : Rect) (kf : String) (f : Rect → Step)
    (fs : List (Rect → Step)) (hf : m.factories = f :: fs)
    (hb : m.beforeCallback ≠ HookSpec.fails) :
    ∃ c : CloneStyle, (Motion.run m rect kf).clones = [c]
      ∧ c.position = "fixed"
      ∧ c.left = ratStr (f rect).point.1 ++ "px"
      ∧ c.top = ratStr (f rect).point.2 ++ "px"
      ∧ c.width = ratStr rect.width ++ "px"
      ∧ c.height = ratStr rect.height ++ "px"
      ∧ c.zIndex = "9999"
      ∧ c.pointerEvents = "none" :=
  ⟨_, run_cons_clones m rect kf f fs hf hb, rfl, rfl, rfl, rfl, rfl, rfl, rfl⟩

/-- Witness for the amended C5 at a concrete input. -/
theorem clone_style_spec_witness :
    c5mot.beforeCallback ≠ HookSpec.fails
    ∧ (Motion.run c5mot ⟨10, 20, 30, 40⟩ "kf").clones.map CloneStyle.width = ["30px"] := by
  refine ⟨by decide, ?_⟩
  obtain ⟨c, hc, -, -, -, hw, -, -, -⟩ :=
    clone_style_spec c5mot ⟨10, 20, 30, 40⟩ "kf" (fun _ => ⟨none, (5, 7), none⟩) []
      rfl (by decide)
  rw [hc, List.map_singleton, hw]
  rfl

/-- A concrete zero-step motion with both hooks set (and succeeding). -/
def c1mot : Motion :=
  ⟨[], 1000, "linear", 0, Repeat.count 1, Direction.normal,
    HookSpec.succeeds, HookSpec.succeeds⟩

/-- C1 counterexample: a Motion with zero steps and an after-hook set — the
early `return` on `steps.length === 0` happens BEFORE the after-hook block,
so the after-hook is never invoked, contrary to the claim. -/
theorem empty_motion_after_hook_skipped :
    c1mot.afterCallback = HookSpec.succeeds
    ∧ Event.afterHook ∉ (Motion.run c1mot ⟨0, 0, 0, 0⟩ "kf").events := by
  constructor
  · rfl
  · intro hmem
    simp [Motion.run, c1mot] at hmem

/-- C1 (amended): a run with no step factories completes immediately after
the before-hook: it does not reject, creates no clone, injects no style
rule — and, contrary to the original claim, the after-hook is NOT invoked
(the early return skips it). -/
theorem empty_motion_noop (m : Motion) (rect : Rect) (kf : String)
    (hf : m.factories = []) (hb : m.beforeCallback ≠ HookSpec.fails) :
    (Motion.run m rect kf).events
        = (if m.beforeCallback = HookSpec.absent then [] else [Event.beforeHook])
    ∧ (Motion.run m rect kf).failed = false
    ∧ (Motion.run m rect kf).clones = []
    ∧ (Motion.run m rect kf).styleRules = []
    ∧ Event.afterHook ∉ (Motion.run m rect kf).events := by
  have hrun : Motion.run m rect kf =
      ⟨if m.beforeCallback = HookSpec.absent then [] else [Event.beforeHook], false⟩ := by
    unfold Motion.run
    rw [if_neg hb, hf]
    simp
  rw [hrun]
  by_cases h1 : m.beforeCallback = HookSpec.absent <;>
    simp [h1, RunResult.clones, RunResult.styleRules, cloneOf, styleOf]

/-- Witness for the amended C1 at a concrete input. -/
theorem empty_motion_noop_witness :
    c1mot.factories = [] ∧ c1mot.beforeCallback ≠ HookSpec.fails
    ∧ (Motion.run c1mot ⟨0, 0, 0, 0⟩ "kf").events = [Event.beforeHook]
    ∧ (Motion.run c1mot ⟨0, 0, 0, 0⟩ "kf").failed = false := by
  refine ⟨rfl, by decide, ?_, (empty_motion_noop c1mot ⟨0, 0, 0, 0⟩ "kf" rfl (by decide)).2.1⟩
  rw [(empty_motion_noop c1mot ⟨0, 0, 0, 0⟩ "kf" rfl (by decide)).1]
  rfl

/-- C7: a failing before-hook makes `run()` reject immediately: the trace
contains only the before-hook invocation — no step factory is called, no
style rule is injected, no clone is created, and the after-hook is never
invoked. -/
theorem before_hook_failure_aborts (m : Motion) (rect : Rect) (kf : String)
    (hb : m.beforeCallback = HookSpec.fails) :
    (Motion.run m rect kf).failed = true
    ∧ (Motion.run m rect kf).events = [Event.beforeHook]
    ∧ (∀ i, Event.factoryCall i ∉ (Motion.run m rect kf).events)
    ∧ (Motion.run m rect kf).clones = []
    ∧ (Motion.run m rect kf).styleRules = []
    ∧ Event.afterHook ∉ (Motion.run m rect kf).events := by
  have hrun : Motion.run m rect kf = ⟨[Event.beforeHook], true⟩ := by
    unfold Motion.run
    rw [hb]
    simp
  rw [hrun]
  refine ⟨rfl, rfl, fun i => by simp, by decide, by decide, by decide⟩

/-- A concrete motion with one step and a failing before-hook. -/
def c7mot : Motion :=
  ⟨[fun _ => ⟨none, (1, 1), none⟩], 1000, "linear", 0, Repeat.count 1,
    Direction.normal, HookSpec.fails, HookSpec.succeeds⟩

/-- Witness for C7 at a concrete input. -/
theorem before_hook_failure_aborts_witness :
    c7mot.beforeCallback = HookSpec.fails
    ∧ (Motion.run c7mot ⟨0, 0, 0, 0⟩ "kf").failed = true
    ∧ (Motion.run c7mot ⟨0, 0, 0, 0⟩ "kf").events = [Event.beforeHook] :=
  ⟨rfl, (before_hook_failure_aborts c7mot ⟨0, 0, 0, 0⟩ "kf" rfl).1,
    (before_hook_failure_aborts c7mot ⟨0, 0, 0, 0⟩ "kf" rfl).2.1⟩

/-- C9: for every non-empty step sequence the normalized point list is the
coordinate-wise subtraction of the first step's point from every step's
point; it has the same length, and its first point is exactly (0, 0). -/
theorem normalize_spec (s0 : Step) (rest : List Step) :
    (Motion.normalizeSteps s0.point (s0 :: rest)).length = (s0 :: rest).length
    ∧ (∀ i, i < (s0 :: rest).length →
        (Motion.normalizeSteps s0.point (s0 :: rest)).getD i (0, 0)
          = (((s0 :: rest).getD i defStep).point.1 - s0.point.1,
             ((s0 :: rest).getD i defStep).point.2 - s0.point.2))
    ∧ (Motion.normalizeSteps s0.point (s0 :: rest)).getD 0 (0, 0) = (0, 0) := by
  refine ⟨by simp [Motion.normalizeSteps], ?_, ?_⟩
  · intro i hi
    unfold Motion.normalizeSteps
    rw [getD_map_of_lt _ _ i hi _ defStep]
  · simp [Motion.normalizeSteps]

/-- Witness for C9 at a concrete input. -/
theorem normalize_spec_witness :
    (1 : Nat) < ([⟨none, (3, 4), none⟩, ⟨none, (10, 1), none⟩] : List Step).length
    ∧ (Motion.normalizeSteps (Step.mk none (3, 4) none).point
        [⟨none, (3, 4), none⟩, ⟨none, (10, 1), none⟩]).getD 1 (0, 0) = (7, -3)
    ∧ (Motion.normalizeSteps (Step.mk none (3, 4) none).point
        [⟨none, (3, 4), none⟩, ⟨none, (10, 1), none⟩]).getD 0 (0, 0) = (0, 0) := by
  refine ⟨by norm_num, ?_,
    (normalize_spec ⟨none, (3, 4), none⟩ [⟨none, (10, 1), none⟩]).2.2⟩
  have h := (normalize_spec ⟨none, (3, 4), none⟩ [⟨none, (10, 1), none⟩]).2.1 1 (by norm_num)
  rw [h]
  norm_num [defStep]

/-- C10: for a motion with exactly one step factory, whatever point the
factory returns, normalization subtracts the point from itself, so the
normalized list is `[(0, 0)]` and the clone's offset path is always the
degenerate `path("M 0 0 L 0 0")`. -/
theorem single_step_origin_path (m : Motion) (rect : Rect) (kf : String)
    (f : Rect → Step) (hf : m.factories = [f])
    (hb : m.beforeCallback ≠ HookSpec.fails) :
    Motion.normalizeSteps (f rect).point [f rect] = [(0, 0)]
    ∧ (Motion.run m rect kf).clones.map CloneStyle.offsetPath
        = ["path(\"M 0 0 L 0 0\")"] := by
  constructor
  · simp [Motion.normalizeSteps]
  · rw [run_cons_clones m rect kf f [] hf hb]
    have h1 : Motion.normalizeSteps ((f rect).point.1, (f rect).point.2)
        (f rect :: ([] : List (Rect → Step)).map (fun g => g rect)) = [(0, 0)] := by
      simp [Motion.normalizeSteps]
    rw [List.map_singleton]
    simp only [Motion.createClone, h1]
    rfl

/-- Witness for C10 at a concrete input: the single step points at (5, 7),
yet the offset path stays at the origin. -/
theorem single_step_origin_path_witness :
    c5mot.beforeCallback ≠ HookSpec.fails
    ∧ (Motion.run c5mot ⟨10, 20, 30, 40⟩ "kf").clones.map CloneStyle.offsetPath
        = ["path(\"M 0 0 L 0 0\")"] :=
  ⟨by decide,
    (single_step_origin_path c5mot ⟨10, 20, 30, 40⟩ "kf"
      (fun _ => ⟨none, (5, 7), none⟩) rfl (by decide)).2⟩

/-- C6: with a non-empty step sequence, a finite repeat count `n` makes
`run()` wait exactly `(duration + delay) * n` and then remove the clone and
the style rule together — both exactly once, adjacent, after the wait and
before the after-hook (nothing earlier in the trace waits or removes);
with repeat "infinite" the run never waits and never removes either
artifact, leaving exactly one injected clone and one injected style rule in
place, and (when an after-hook is set) proceeds directly to it as the last
event. -/
theorem teardown_spec (m : Motion) (rect : Rect) (kf : String) (f : Rect → Step)
    (fs : List (Rect → Step)) (hf : m.factories = f :: fs)
    (hb : m.beforeCallback ≠ HookSpec.fails) :
    (∀ n, m.repeatCount = Repeat.count n →
      ∃ A, (Motion.run m rect kf).events =
          A ++ [Event.waitFor ((m.durationMs + m.delayMs) * n), Event.cloneRemove,
                Event.styleRemove] ++
            (if m.afterCallback = HookSpec.absent then [] else [Event.afterHook])
        ∧ Event.cloneRemove ∉ A ∧ Event.styleRemove ∉ A ∧ Event.afterHook ∉ A
        ∧ (∀ t, Event.waitFor t ∉ A))
    ∧ (m.repeatCount = Repeat.infinite →
        (∀ t, Event.waitFor t ∉ (Motion.run m rect kf).events)
        ∧ Event.cloneRemove ∉ (Motion.run m rect kf).events
        ∧ Event.styleRemove ∉ (Motion.run m rect kf).events
        ∧ (Motion.run m rect kf).clones.length = 1
        ∧ (Motion.run m rect kf).styleRules.length = 1
        ∧ (m.afterCallback ≠ HookSpec.absent →
            (Motion.run m rect kf).events.getLast? = some Event.afterHook)) := by
  constructor
  · intro n hn
    rw [run_cons m rect kf f fs hf hb]
    refine ⟨(if m.beforeCallback = HookSpec.absent then [] else [Event.beforeHook]) ++
      (List.range (fs.length + 1)).map Event.factoryCall ++
      [Event.styleInject (Motion.buildKeyframes kf (f rect :: fs.map (fun g => g rect))),
       Event.cloneAppend (Motion.createClone rect (f rect).point.1 (f rect).point.2
         (Motion.buildPath (Motion.normalizeSteps ((f rect).point.1, (f rect).point.2)
           (f rect :: fs.map (fun g => g rect))))
         ⟨kf, m.durationMs, m.easingFn, m.delayMs, m.repeatCount, m.directionVal⟩)],
      ?_, ?_, ?_, ?_, ?_⟩
    · simp [hn]
    · by_cases h1 : m.beforeCallback = HookSpec.absent <;> simp [h1]
    · by_cases h1 : m.beforeCallback = HookSpec.absent <;> simp [h1]
    · by_cases h1 : m.beforeCallback = HookSpec.absent <;> simp [h1]
    · intro t
      by_cases h1 : m.beforeCallback = HookSpec.absent <;> simp [h1]
  · intro hinf
    have hev : (Motion.run m rect kf).events =
        ((if m.beforeCallback = HookSpec.absent then [] else [Event.beforeHook]) ++
          (List.range (fs.length + 1)).map Event.factoryCall ++
          [Event.styleInject (Motion.buildKeyframes kf (f rect :: fs.map (fun g => g rect))),
           Event.cloneAppend (Motion.createClone rect (f rect).point.1 (f rect).point.2
             (Motion.buildPath (Motion.normalizeSteps ((f rect).point.1, (f rect).point.2)
               (f rect :: fs.map (fun g => g rect))))
             ⟨kf, m.durationMs, m.easingFn, m.delayMs, m.repeatCount, m.directionVal⟩)]) ++
          (if m.afterCallback = HookSpec.absent then [] else [Event.afterHook]) := by
      rw [run_cons m rect kf f fs hf hb]
      simp [hinf]
    refine ⟨?_, ?_, ?_, ?_, ?_, ?_⟩
    · intro t
      rw [hev]
      by_cases h1 : m.beforeCallback = HookSpec.absent <;>
        by_cases h3 : m.afterCallback = HookSpec.absent <;> simp [h1, h3]
    · rw [hev]
      by_cases h1 : m.beforeCallback = HookSpec.absent <;>
        by_cases h3 : m.afterCallback = HookSpec.absent <;> simp [h1, h3]
    · rw [hev]
      by_cases h1 : m.beforeCallback = HookSpec.absent <;>
        by_cases h3 : m.afterCallback = HookSpec.absent <;> simp [h1, h3]
    · rw [run_cons_clones m rect kf f fs hf hb]
      rfl
    · rw [run_cons_styleRules m rect kf f fs hf hb]
      rfl
    · intro haft
      rw [hev, if_neg haft, List.getLast?_concat]

/-- A concrete one-step motion with duration 800, delay 100, repeat 2. -/
def c6mot : Motion :=
  ⟨[fun _ => ⟨none, (0, 0), none⟩], 800, "linear", 100, Repeat.count 2,
    Direction.normal, HookSpec.absent, HookSpec.absent⟩

/-- Witness for C6 at a concrete input: duration 800 + delay 100 repeated
twice waits exactly 1800 ms before the teardown. -/
theorem teardown_spec_witness :
    c6mot.repeatCount = Repeat.count 2
    ∧ c6mot.beforeCallback ≠ HookSpec.fails
    ∧ Event.waitFor 1800 ∈ (Motion.run c6mot ⟨0, 0, 0, 0⟩ "kf").events
    ∧ Event.cloneRemove ∈ (Motion.run c6mot ⟨0, 0, 0, 0⟩ "kf").events := by
  obtain ⟨A, hA, -, -, -, -⟩ := (teardown_spec c6mot ⟨0, 0, 0, 0⟩ "kf"
    (fun _ => ⟨none, (0, 0), none⟩) [] rfl (by decide)).1 2 rfl
  have h2 : (c6mot.durationMs + c6mot.delayMs) * 2 = (1800 : ℚ) := by
    norm_num [c6mot]
  refine ⟨rfl, by decide, ?_, ?_⟩
  · rw [hA, h2]
    simp
  · rw [hA]
    simp

/-- C8: `MotionTimeline.play` runs its queue strictly in insertion order —
when no entry rejects, the full trace is exactly the concatenation of each
entry's complete trace, in queue order, and the call resolves (does not
reject); a nested timeline entry is played by recursively playing its whole
queue; a motion entry is played by its full `run` lifecycle; and a queue
emptied by `clear()` makes `play()` resolve with no entry executed. -/
theorem timeline_play_spec :
    (∀ q : List TimelineEntry, (∀ e ∈ q, (TimelineEntry.play e).failed = false) →
        MotionTimeline.playQueue q =
          ⟨(q.map (fun e => (TimelineEntry.play e).events)).join, false⟩)
    ∧ (∀ queue : List TimelineEntry,
        TimelineEntry.play (TimelineEntry.timeline queue) = MotionTimeline.playQueue queue)
    ∧ (∀ (mo : Motion) (rect : Rect) (kfName : String),
        TimelineEntry.play (TimelineEntry.motion mo rect kfName) = Motion.run mo rect kfName)
    ∧ (∀ t : MotionTimeline, MotionTimeline.play (MotionTimeline.clear t) = ⟨[], false⟩) := by
  refine ⟨?_, ?_, ?_, ?_⟩
  · intro q hq
    induction q with
    | nil =>
      rw [MotionTimeline.playQueue]
      simp
    | cons e rest ih =>
      rw [MotionTimeline.playQueue]
      have he : (TimelineEntry.play e).failed = false := hq e (by simp)
      simp only [he, Bool.false_eq_true, if_false]
      rw [ih (fun e' he' => hq e' (by simp [he']))]
      simp
  · intro queue
    rw [TimelineEntry.play]
  · intro mo rect kfName
    rw [TimelineEntry.play]
  · intro t
    rw [MotionTimeline.play, MotionTimeline.clear, MotionTimeline.playQueue]

/-- A concrete zero-step motion used as a timeline entry. -/
def c8mot : Motion :=
  ⟨[], 1000, "linear", 0, Repeat.count 1, Direction.normal,
    HookSpec.succeeds, HookSpec.absent⟩

/-- Witness for C8 at a concrete input: a one-entry queue plays to exactly
that entry's trace. -/
theorem timeline_play_spec_witness :
    (∀ e ∈ [TimelineEntry.motion c8mot ⟨0, 0, 0, 0⟩ "kf"],
      (TimelineEntry.play e).failed = false)
    ∧ MotionTimeline.playQueue [TimelineEntry.motion c8mot ⟨0, 0, 0, 0⟩ "kf"]
        = ⟨[Event.beforeHook], false⟩ := by
  have hrun : Motion.run c8mot ⟨0, 0, 0, 0⟩ "kf" = ⟨[Event.beforeHook], false⟩ := by
    simp [Motion.run, c8mot]
  have hfail : ∀ e ∈ [TimelineEntry.motion c8mot ⟨0, 0, 0, 0⟩ "kf"],
      (TimelineEntry.play e).failed = false := by
    intro e he
    simp only [List.mem_singleton] at he
    subst he
    rw [timeline_play_spec.2.2.1 c8mot ⟨0, 0, 0, 0⟩ "kf", hrun]
  refine ⟨hfail, ?_⟩
  rw [timeline_play_spec.1 _ hfail]
  simp [timeline_play_spec.2.2.1 c8mot ⟨0, 0, 0, 0⟩ "kf", hrun]
